import Mathlib

/-!
Verification of the audio-response generation pipeline of the CMO-Demo
repository (`fastAPI/core/tts_services.py` and
`fastAPI/core/transcription.py`), shallowly embedded in Lean 4.

Text is modelled as `List Char`.  The Python `re` primitives used by the
source (character classes, word boundaries `\b`, `\s`, substring tests,
anchored suffix searches) are embedded as executable boolean functions.
Character-class tables (word characters, whitespace) follow CPython's
Unicode semantics, tabulated exactly for the ASCII and Devanagari ranges,
which are the scripts this classifier distinguishes; code points of other
scripts are treated as non-word characters.
-/

namespace CMO

/-- Characters of the Devanagari Unicode block, i.e. the Python regex
class `[ऀ-ॿ]` used by `detect_language` and `transcription`. -/
def isDevanagari (c : Char) : Bool :=
  0x900 ≤ c.toNat && c.toNat ≤ 0x97F

/-- The Python regex class `[A-Za-z]`. -/
def isLatinLetter (c : Char) : Bool :=
  (65 ≤ c.toNat && c.toNat ≤ 90) || (97 ≤ c.toNat && c.toNat ≤ 122)

/-- Python's whitespace characters: the set matched by `\s` in `re` and
stripped by `str.strip()` for `str` arguments. -/
def isPySpace (c : Char) : Bool :=
  let n := c.toNat
  (9 ≤ n && n ≤ 13) || (28 ≤ n && n ≤ 31) || n == 32 || n == 0x85 ||
  n == 0xA0 || n == 0x1680 || (0x2000 ≤ n && n ≤ 0x200A) ||
  n == 0x2028 || n == 0x2029 || n == 0x202F || n == 0x205F || n == 0x3000

/-- Word characters for Python's `\b` word boundary (`\w`): ASCII
alphanumerics and `_`, plus the Devanagari code points that CPython
counts as alphanumeric.  Combining signs (`0x900`–`0x903`,
`0x93A`–`0x93C`, the vowel signs `0x93E`–`0x94F`, stress signs
`0x951`–`0x957`, `0x962`–`0x963`), the dandas `0x964`–`0x965` and the
abbreviation sign `0x970` are not word characters; this table was checked
code point by code point against CPython's `re`. -/
def isWordChar (c : Char) : Bool :=
  let n := c.toNat
  (48 ≤ n && n ≤ 57) || (65 ≤ n && n ≤ 90) || (97 ≤ n && n ≤ 122) ||
  n == 95 ||
  (0x904 ≤ n && n ≤ 0x939) || n == 0x93D || n == 0x950 ||
  (0x958 ≤ n && n ≤ 0x961) || (0x966 ≤ n && n ≤ 0x96F) ||
  (0x971 ≤ n && n ≤ 0x97F)

/-- Python's substring containment test `w in l`. -/
def hasSub (w : List Char) : List Char → Bool
  | [] => w.isPrefixOf []
  | c :: rest => w.isPrefixOf (c :: rest) || hasSub w rest

/-- Match the word sequence `ws` (the words of a pattern, joined by `\s+`
in the source regex) literally at the head of `l`; on success return the
remaining text.  `\s+` is greedy, which is exact here because every
pattern word starts with a non-whitespace character. -/
def matchSeq : List (List Char) → List Char → Option (List Char)
  | [], l => some l
  | [w], l => if w.isPrefixOf l then some (l.drop w.length) else none
  | w :: ws, l =>
    if w.isPrefixOf l then
      let rest := l.drop w.length
      let rest' := rest.dropWhile isPySpace
      if rest'.length == rest.length then none else matchSeq ws rest'
    else none

/-- First character of a pattern (a nonempty list of nonempty words). -/
def patFirst (p : List (List Char)) : Option Char :=
  p.head?.bind List.head?

/-- Last character of a pattern. -/
def patLast (p : List (List Char)) : Option Char :=
  p.getLast?.bind List.getLast?

/-- Wordness of an optional character; the edges of the text count as
non-word, as in Python's `\b`. -/
def wordOpt : Option Char → Bool
  | none => false
  | some c => isWordChar c

/-- The regex `\b w₁ \s+ … \s+ wₙ \b` matches at the current position of
the text, where `prevW` is the wordness of the preceding character
(`false` at the start of the text).  A `\b` holds at a position iff
exactly one of its two neighbouring characters is a word character. -/
def patMatchHere (p : List (List Char)) (prevW : Bool) (l : List Char) : Bool :=
  match matchSeq p l with
  | none => false
  | some rest => (prevW != wordOpt (patFirst p)) &&
      (wordOpt (patLast p) != wordOpt rest.head?)

/-- Scan the text for a match of the pattern, tracking the wordness of
the previous character. -/
def patSearchAux (p : List (List Char)) (prevW : Bool) : List Char → Bool
  | [] => false
  | c :: rest => patMatchHere p prevW (c :: rest) || patSearchAux p (isWordChar c) rest

/-- `re.search` for a `\b`-delimited word-sequence pattern. -/
def patSearch (p : List (List Char)) (l : List Char) : Bool :=
  patSearchAux p false l

/-- The Marathi-distinctive patterns of `detect_language`
(`marathi_patterns` in the source, each regex `\bw\b`). -/
def marathiPatterns : List (List (List Char)) :=
  [["च्या".data], ["त्या".data], ["ह्या".data],
   ["आपल्या".data], ["त्यांच्या".data], ["तिच्या".data],
   ["असेल".data], ["होतो".data], ["होते".data], ["होती".data],
   ["झाले".data], ["झाला".data], ["झाली".data],
   ["केले".data], ["केला".data], ["केली".data],
   ["आलो".data], ["आली".data], ["आले".data],
   ["गेलो".data], ["गेली".data], ["गेले".data],
   ["पाहिजे".data], ["नको".data], ["लागते".data],
   ["सांगितले".data], ["बोललो".data], ["विचारले".data]]

/-- The Hindi-distinctive patterns of `detect_language`
(`hindi_patterns` in the source; two-word entries are the regexes
`\bw₁\s+w₂\b`). -/
def hindiPatterns : List (List (List Char)) :=
  [["हैं".data], ["है".data], ["था".data], ["थी".data], ["थे".data],
   ["करता".data, "है".data], ["करती".data, "है".data], ["करते".data, "हैं".data],
   ["होता".data, "है".data], ["होती".data, "है".data], ["होते".data, "हैं".data],
   ["चाहिए".data], ["सकता".data], ["सकती".data], ["सकते".data],
   ["रहा".data, "है".data], ["रही".data, "है".data], ["रहे".data, "हैं".data],
   ["गया".data], ["गई".data], ["गए".data],
   ["आया".data], ["आई".data], ["आए".data],
   ["किया".data], ["की".data], ["किए".data],
   ["लिए".data], ["द्वारा".data], ["अथवा".data],
   ["तथा".data], ["एवं".data], ["हेतु".data]]

/-- Government/official Hindi vocabulary, tested by plain substring
containment in the source. -/
def hindiDomainWords : List (List Char) :=
  ["सरकार".data, "योजना".data, "मंत्रालय".data,
   "विभाग".data, "अधिसूचना".data, "दिनांक".data]

/-- Common Marathi daily-use words, tested by plain substring
containment in the source. -/
def marathiDailyWords : List (List Char) :=
  ["बरं".data, "नक्की".data, "खरंच".data,
   "कधी".data, "कुठे".data, "कसं".data]

/-- The Marathi copula word `आहे`. -/
def aheW : List Char := "आहे".data

/-- The Marathi plural copula `आहेत`. -/
def ahetW : List Char := "आहेत".data

/-- The Hindi copula `है`. -/
def haiW : List Char := "है".data

/-- The Hindi plural copula `हैं`. -/
def hainW : List Char := "हैं".data

/-- The Hindi past copulas `था`, `थी`, `थे`. -/
def thaW : List Char := "था".data

def thiW : List Char := "थी".data

def theW : List Char := "थे".data

/-- Sentence-ending characters allowed after a final copula: the danda
`।` and whitespace, i.e. the regex class `[।\s]` of the source's
`re.search(r'आहे[।\s]*$', text)`-style checks. -/
def isEnderChar (c : Char) : Bool :=
  c == '।' || isPySpace c

/-- Anchored suffix search: the text ends with the word `w`
followed only by dandas and whitespace.  (`$` may also match before a
final newline, which is subsumed because `\n` is whitespace.) -/
def endsAfterEnders (w text : List Char) : Bool :=
  w.reverse.isPrefixOf (text.reverse.dropWhile isEnderChar)

/-- Number of Marathi patterns matching (`marathi_score` accumulation). -/
def marathiPatScore (text : List Char) : Nat :=
  marathiPatterns.countP (fun p => patSearch p text)

/-- Number of Hindi patterns matching (`hindi_score` accumulation). -/
def hindiPatScore (text : List Char) : Nat :=
  hindiPatterns.countP (fun p => patSearch p text)

/-- The copula tie-break of `detect_language`: `आहे` present without
`है` adds 2 to Marathi, otherwise a present `है`/`हैं` adds 2 to Hindi
(the source's `if`/`elif` on substring containment). -/
def bonusScores (text : List Char) : Nat × Nat :=
  let m := marathiPatScore text
  let h := hindiPatScore text
  if hasSub aheW text && !hasSub haiW text then (m + 2, h)
  else if hasSub haiW text || hasSub hainW text then (m, h + 2)
  else (m, h)

/-- Domain-vocabulary hints: any official Hindi term adds 1 to Hindi,
any Marathi daily-use word adds 1 to Marathi. -/
def domainScores (text : List Char) : Nat × Nat :=
  let mh := bonusScores text
  let h' := if hindiDomainWords.any (fun w => hasSub w text) then mh.2 + 1 else mh.2
  let m' := if marathiDailyWords.any (fun w => hasSub w text) then mh.1 + 1 else mh.1
  (m', h')

/-- The near-tie sentence-ending rule: when the scores differ by at most
1, a Marathi copula ending adds 1 to Marathi, else a Hindi copula ending
adds 1 to Hindi. -/
def finalScores (text : List Char) : Nat × Nat :=
  let mh := domainScores text
  let m := mh.1
  let h := mh.2
  if m - h ≤ 1 && h - m ≤ 1 then
    if endsAfterEnders aheW text || endsAfterEnders ahetW text then (m + 1, h)
    else if endsAfterEnders haiW text || endsAfterEnders hainW text then (m, h + 1)
    else (m, h)
  else (m, h)

/-- The language classifier of `tts_services.py`: `'en'` when the TTS
dependencies are unavailable; otherwise Devanagari text is scored
between Marathi and Hindi (Marathi only on a strictly greater score),
and any other text classifies as `'en'` (both the Latin branch and the
unconditional fallback of the source return `'en'`). -/
def detect_language (ttsAvailable : Bool) (text : List Char) : String :=
  if ttsAvailable = false then "en"
  else if text.any isDevanagari then
    if (finalScores text).2 < (finalScores text).1 then "mr" else "hi"
  else if text.any isLatinLetter then "en"
  else "en"

/-! ## Text sanitizer

The cleaning steps at the top of `generate_audio_response`:
stage-direction removal, decorative-symbol removal, whitespace
collapsing, and stripping. -/

/-- Scan for the first adjacent pair `/]` before any newline (the regex
`\[.*?\/]` matches minimally and `.` does not cross `\n`); on success
return the text after that pair. -/
def findDirEnd : List Char → Option (List Char)
  | [] => none
  | c :: rest =>
    if c = '\n' then none
    else if c = '/' then
      if rest.head? = some ']' then some rest.tail
      else findDirEnd rest
    else findDirEnd rest

/-- One fuelled pass of `re.sub(r'\[.*?\/]', '', text)`: each `[` that
is followed by `/]` on the same line is removed together with
everything up to and including that first `/]`; scanning resumes after
the removed segment.  The fuel is only a structural-recursion device;
`stripStageDirections` supplies enough for it never to run out. -/
def stripStageAux : Nat → List Char → List Char
  | 0, l => l
  | _ + 1, [] => []
  | fuel + 1, c :: rest =>
    if c = '[' then
      match findDirEnd rest with
      | some rest' => stripStageAux fuel rest'
      | none => c :: stripStageAux fuel rest
    else c :: stripStageAux fuel rest

/-- Python's `re.sub(r'\[.*?\/]', '', text)`. -/
def stripStageDirections (l : List Char) : List Char :=
  stripStageAux l.length l

/-- The fixed decorative symbols removed by
`re.sub(r'[✅ℹ️🔍⚠️*●#=]', '', text)`; the character class consists of
these individual code points (the emoji are followed by the variation
selector `0xFE0F`, itself a member of the class). -/
def isDecorative (c : Char) : Bool :=
  let n := c.toNat
  n == 0x2705 || n == 0x2139 || n == 0xFE0F || n == 0x1F50D ||
  n == 0x26A0 || n == 0x2A || n == 0x25CF || n == 0x23 || n == 0x3D

/-- Removal of the decorative symbols. -/
def removeDecorations (l : List Char) : List Char :=
  l.filter (fun c => !isDecorative c)

/-- Python's `re.sub(r'\s+', ' ', text)`: every maximal run of
whitespace becomes a single space. -/
def collapseWs : List Char → List Char
  | [] => []
  | [c] => if isPySpace c then [' '] else [c]
  | a :: b :: rest =>
    if isPySpace a && isPySpace b then collapseWs (b :: rest)
    else (if isPySpace a then ' ' else a) :: collapseWs (b :: rest)

/-- Leading-whitespace strip. -/
def lstripWs (l : List Char) : List Char :=
  l.dropWhile isPySpace

/-- Trailing-whitespace strip. -/
def rstripWs (l : List Char) : List Char :=
  (l.reverse.dropWhile isPySpace).reverse

/-- Python's `str.strip()`. -/
def pyStrip (l : List Char) : List Char :=
  rstripWs (lstripWs l)

/-- The full cleaning pipeline of `generate_audio_response`:
stage directions, then decorative symbols, then whitespace collapsing
and stripping. -/
def sanitize (text : List Char) : List Char :=
  pyStrip (collapseWs (removeDecorations (stripStageDirections text)))

/-- The text contains a same-line stage direction, i.e. a `[` followed
by an adjacent `/]` with no intervening newline — exactly the texts on
which `re.sub(r'\[.*?\/]', '', ·)` removes something. -/
def containsDirective : List Char → Bool
  | [] => false
  | c :: rest => (c = '[' && (findDirEnd rest).isSome) || containsDirective rest

/-- No two adjacent characters are both whitespace. -/
def noAdjWs : List Char → Bool
  | a :: b :: rest => !(isPySpace a && isPySpace b) && noAdjWs (b :: rest)
  | _ => true

/-- The first character, if any, is whitespace. -/
def headIsSpace : List Char → Bool
  | [] => false
  | c :: _ => isPySpace c

/-- The last character, if any, is whitespace. -/
def lastIsSpace (l : List Char) : Bool :=
  headIsSpace l.reverse

/-- No decorative symbol occurs in the text. -/
def decorFree (l : List Char) : Bool :=
  l.all (fun c => !isDecorative c)

/-! ## Audio cache, synthesis adapter and orchestrator

`tts_services.py` imports its cache from `core/cache_manager.py`, a file
absent from the sources; those three functions are modelled from the
spec.  The external `gTTS` engine is a parameter: a function from
(text, language, slow flag) to `some bytes` on success and `none` when
the engine raises. -/

/-- Audio byte strings. -/
abbrev AudioBytes := List Nat

/-- A cache key. -/
abbrev CacheKey := List Char × String × ℚ

/-- Modelled from the spec: `core.cache_manager.get_audio_hash`, a
deterministic content fingerprint of the `(text, language, speed)`
triple where equal triples always produce the same key and distinct
triples produce distinct keys; modelled as the triple itself, an
injective fingerprint. -/
def get_audio_hash (text : List Char) (lang : String) (speed : ℚ) : CacheKey :=
  (text, lang, speed)

/-- Modelled from the spec: `core.cache_manager.get_cached_audio`
returns the bytes stored under a key, or absence; never fails. -/
def get_cached_audio (key : CacheKey) : List (CacheKey × AudioBytes) → Option AudioBytes
  | [] => none
  | (k, b) :: rest => if k = key then some b else get_cached_audio key rest

/-- Modelled from the spec: `core.cache_manager.cache_audio` stores
bytes under a key in the process-lifetime in-memory store. -/
def cache_audio (key : CacheKey) (bytes : AudioBytes)
    (cache : List (CacheKey × AudioBytes)) : List (CacheKey × AudioBytes) :=
  (key, bytes) :: cache

/-- The mutable state threaded through the pipeline: the audio cache
and a log of the calls made to the external synthesis engine (each
recorded as its `(text, language, slow)` arguments). -/
structure TtsState where
  cache : List (CacheKey × AudioBytes)
  engineLog : List (List Char × String × Bool)
deriving DecidableEq

/-- The external synthesis engine (`gTTS` + `write_to_fp`): produces
audio bytes, or fails (raises), on given text, language and slow flag. -/
abbrev Engine := List Char → String → Bool → Option AudioBytes

/-- The closed set of supported languages checked by `text_to_speech`
before synthesis. -/
def validLang (l : String) : Bool :=
  l == "en" || l == "hi" || l == "mr"

/-- The language-resolution step of `text_to_speech`
(`if auto_detect or not lang: lang = detect_language(text)`); the empty
string is falsy in Python and therefore also triggers detection. -/
def resolveLang (ttsAvailable : Bool) (text : List Char)
    (lang : Option String) (autoDetect : Bool) : String :=
  match lang with
  | none => detect_language ttsAvailable text
  | some l =>
    if autoDetect || l == "" then detect_language ttsAvailable text else l

/-- The speed below which the source selects slow synthesis
(`slow=speed < 0.8`). -/
def slowThreshold : ℚ := mkRat 8 10

/-- The synthesis adapter `text_to_speech` of `tts_services.py`.
Returns `(audio bytes or none, language used, cache status string)`
together with the updated state; the status strings are the source's
`'cached'`, `'generated'`, `'TTS not available'` and `'error: …'`
returns, with the two distinct exception texts (unsupported language /
engine failure) standing in for the interpolated exception message.
Raised exceptions are modelled by the explicitly returned error status,
exactly as the source's enclosing `try`/`except` converts them. -/
def text_to_speech (ttsAvailable : Bool) (engine : Engine) (text : List Char)
    (lang : Option String) (autoDetect : Bool) (speed : ℚ) (st : TtsState) :
    (Option AudioBytes × String × String) × TtsState :=
  if ttsAvailable = false then ((none, "en", "TTS not available"), st)
  else
    let l := resolveLang ttsAvailable text lang autoDetect
    if validLang l = false then ((none, l, "error: unsupported language"), st)
    else
      let key := get_audio_hash text l speed
      let cachedAudio := get_cached_audio key st.cache
      if cachedAudio.getD [] ≠ [] then
        ((some (cachedAudio.getD []), l, "cached"), st)
      else
        let slow := Rat.blt speed slowThreshold
        let st1 : TtsState := { st with engineLog := (text, l, slow) :: st.engineLog }
        match engine text l slow with
        | some bytes =>
          ((some bytes, l, "generated"),
            { st1 with cache := cache_audio key bytes st1.cache })
        | none => ((none, l, "error: synthesis failed"), st1)

/-- The target-language resolution line of `generate_audio_response`
(`target_lang = lang_preference if lang_preference and
lang_preference != 'auto' else None`); `None` and the empty string are
falsy. -/
def target_lang (langPreference : Option String) : Option String :=
  match langPreference with
  | none => none
  | some l => if l == "auto" || l == "" then none else some l

/-- The orchestrator `generate_audio_response` of `tts_services.py`:
sanitize, short-circuit below five characters, resolve the target
language, delegate to `text_to_speech`, and report a cache hit exactly
when the status is `'cached'`.  Its own `try`/`except` can never fire in
the model because `text_to_speech` already converts every failure into
an error status, mirroring the source where the sanitizing regexes are
total and `text_to_speech` catches all exceptions. -/
def generate_audio_response (ttsAvailable : Bool) (engine : Engine)
    (text : List Char) (langPreference : Option String) (speed : ℚ)
    (st : TtsState) : (Option AudioBytes × Option String × Bool) × TtsState :=
  if ttsAvailable = false then ((none, some "en", false), st)
  else
    let cleanText := sanitize text
    if cleanText.length < 5 then
      ((none, if langPreference == some "auto" then some "en" else langPreference,
        false), st)
    else
      let target := target_lang langPreference
      let r := text_to_speech ttsAvailable engine cleanText target
        (target == none) speed st
      ((r.1.1, some r.1.2.1, r.1.2.2 == "cached"), r.2)

/-! ## Transcription-side language validation -/

/-- The function `validate_language` of `transcription.py`: reject empty
or whitespace-only text, otherwise accept exactly when a Devanagari
character or a Latin letter is present. -/
def validate_language (text : List Char) : Bool :=
  if text = [] || pyStrip text = [] then false
  else text.any isDevanagari || text.any isLatinLetter

/-! ## Helper lemmas about substring search and suffix search -/

theorem hasSub_iff (w : List Char) : ∀ l, hasSub w l = true ↔ ∃ a b, l = a ++ w ++ b := by
  intro l
  induction l with
  | nil =>
    simp only [hasSub, List.isPrefixOf_iff_prefix, List.prefix_nil]
    constructor
    · rintro rfl; exact ⟨[], [], rfl⟩
    · rintro ⟨a, b, h⟩
      have h' : a ++ (w ++ b) = [] := by simpa using h.symm
      rcases List.append_eq_nil.mp h' with ⟨-, h2⟩
      exact (List.append_eq_nil.mp h2).1
  | cons c rest ih =>
    simp only [hasSub, Bool.or_eq_true, ih, List.isPrefixOf_iff_prefix]
    constructor
    · rintro (⟨t, ht⟩ | ⟨a, b, rfl⟩)
      · exact ⟨[], t, by simp [ht]⟩
      · exact ⟨c :: a, b, by simp⟩
    · rintro ⟨a, b, hab⟩
      cases a with
      | nil => exact Or.inl ⟨b, by simpa using hab.symm⟩
      | cons x a' =>
        simp only [List.cons_append, List.cons.injEq] at hab
        exact Or.inr ⟨a', b, hab.2⟩

theorem hasSub_append_left (u v l : List Char) (h : hasSub (u ++ v) l = true) :
    hasSub u l = true := by
  rcases (hasSub_iff _ _).mp h with ⟨a, b, rfl⟩
  exact (hasSub_iff _ _).mpr ⟨a, v ++ b, by simp⟩

theorem endsAfterEnders_hasSub (w text : List Char)
    (h : endsAfterEnders w text = true) : hasSub w text = true := by
  unfold endsAfterEnders at h
  rw [List.isPrefixOf_iff_prefix] at h
  rcases h with ⟨t, ht⟩
  apply (hasSub_iff _ _).mpr
  refine ⟨t.reverse, (text.reverse.takeWhile isEnderChar).reverse, ?_⟩
  have hsplit : text.reverse = text.reverse.takeWhile isEnderChar ++ (w.reverse ++ t) := by
    rw [ht]
    exact (List.takeWhile_append_dropWhile isEnderChar text.reverse).symm
  calc text = text.reverse.reverse := (List.reverse_reverse text).symm
    _ = (text.reverse.takeWhile isEnderChar ++ (w.reverse ++ t)).reverse := by rw [← hsplit]
    _ = t.reverse ++ w ++ (text.reverse.takeWhile isEnderChar).reverse := by
        simp [List.reverse_append]

/-! ## Helper lemmas about the sanitizer -/

theorem findDirEnd_length : ∀ l r, findDirEnd l = some r → r.length < l.length := by
  intro l
  induction l with
  | nil => intro r h; simp [findDirEnd] at h
  | cons c rest ih =>
    intro r h
    simp only [findDirEnd] at h
    split at h
    · simp at h
    · split at h
      · split at h
        · rename_i hhead
          have hr : rest.tail = r := by simpa using h
          subst hr
          cases rest with
          | nil => simp at hhead
          | cons x xs => simp; omega
        · have := ih r h; simp; omega
      · have := ih r h; simp; omega

theorem stripStageAux_head? (fuel : Nat) (l : List Char) (h : findDirEnd l = none) :
    (stripStageAux fuel l).head? = l.head? := by
  cases fuel with
  | zero => rfl
  | succ fuel =>
    cases l with
    | nil => rfl
    | cons c rest =>
      by_cases hc : c = '['
      · subst hc
        have hr : findDirEnd rest = none := by
          simpa only [findDirEnd, if_neg (show ¬('[' : Char) = '\n' by decide),
            if_neg (show ¬('[' : Char) = '/' by decide)] using h
        simp [stripStageAux, hr]
      · simp [stripStageAux, hc]

theorem findDirEnd_stripStageAux : ∀ fuel (l : List Char), l.length ≤ fuel →
    findDirEnd l = none → findDirEnd (stripStageAux fuel l) = none := by
  intro fuel
  induction fuel with
  | zero => intro l _ h; simpa [stripStageAux] using h
  | succ fuel ih =>
    intro l hlen h
    cases l with
    | nil => simpa [stripStageAux] using h
    | cons c rest =>
      have hlen' : rest.length ≤ fuel := by simp at hlen; omega
      by_cases hc : c = '['
      · subst hc
        have hr : findDirEnd rest = none := by
          simpa only [findDirEnd, if_neg (show ¬('[' : Char) = '\n' by decide),
            if_neg (show ¬('[' : Char) = '/' by decide)] using h
        rw [show stripStageAux (fuel + 1) ('[' :: rest) = '[' :: stripStageAux fuel rest from
          by simp [stripStageAux, hr]]
        simpa only [findDirEnd, if_neg (show ¬('[' : Char) = '\n' by decide),
          if_neg (show ¬('[' : Char) = '/' by decide)] using ih rest hlen' hr
      · rw [show stripStageAux (fuel + 1) (c :: rest) = c :: stripStageAux fuel rest from
          by simp [stripStageAux, hc]]
        by_cases hn : c = '\n'
        · subst hn; simp [findDirEnd]
        · by_cases hs : c = '/'
          · subst hs
            simp only [findDirEnd, if_neg (show ¬('/' : Char) = '\n' by decide),
              if_pos rfl] at h ⊢
            by_cases hh : rest.head? = some ']'
            · rw [if_pos hh] at h
              simp at h
            · rw [if_neg hh] at h
              rw [stripStageAux_head? fuel rest h, if_neg hh]
              exact ih rest hlen' h
          · simp only [findDirEnd, if_neg hn, if_neg hs] at h ⊢
            exact ih rest hlen' h

theorem containsDirective_stripStageAux : ∀ fuel (l : List Char), l.length ≤ fuel →
    containsDirective (stripStageAux fuel l) = false := by
  intro fuel
  induction fuel with
  | zero =>
    intro l hlen
    have hl : l = [] := List.eq_nil_of_length_eq_zero (Nat.le_zero.mp hlen)
    subst hl; rfl
  | succ fuel ih =>
    intro l hlen
    cases l with
    | nil => rfl
    | cons c rest =>
      have hlen' : rest.length ≤ fuel := by simp at hlen; omega
      by_cases hc : c = '['
      · subst hc
        cases hfd : findDirEnd rest with
        | some rest' =>
          rw [show stripStageAux (fuel + 1) ('[' :: rest) = stripStageAux fuel rest' from
            by simp [stripStageAux, hfd]]
          exact ih rest' (by have := findDirEnd_length rest rest' hfd; omega)
        | none =>
          rw [show stripStageAux (fuel + 1) ('[' :: rest) = '[' :: stripStageAux fuel rest from
            by simp [stripStageAux, hfd]]
          simp only [containsDirective, Bool.or_eq_false_iff, Bool.and_eq_false_iff]
          constructor
          · right
            rw [findDirEnd_stripStageAux fuel rest hlen' hfd]
            rfl
          · exact ih rest hlen'
      · rw [show stripStageAux (fuel + 1) (c :: rest) = c :: stripStageAux fuel rest from
          by simp [stripStageAux, hc]]
        simp only [containsDirective, Bool.or_eq_false_iff, Bool.and_eq_false_iff]
        exact ⟨Or.inl (by simp [hc]), ih rest hlen'⟩

theorem containsDirective_stripStageDirections (l : List Char) :
    containsDirective (stripStageDirections l) = false :=
  containsDirective_stripStageAux l.length l (le_refl _)

theorem headIsSpace_collapseWs (l : List Char) :
    headIsSpace (collapseWs l) = headIsSpace l := by
  induction l with
  | nil => rfl
  | cons a rest ih =>
    cases rest with
    | nil =>
      by_cases h : isPySpace a = true
      · simp [collapseWs, h, headIsSpace]; decide
      · simp [collapseWs, h, headIsSpace]
    | cons b rest' =>
      by_cases hab : (isPySpace a && isPySpace b) = true
      · obtain ⟨ha, hb⟩ : isPySpace a = true ∧ isPySpace b = true := by simpa using hab
        rw [show collapseWs (a :: b :: rest') = collapseWs (b :: rest') from
          by simp [collapseWs, hab]]
        rw [ih]
        simp [headIsSpace, ha, hb]
      · rw [show collapseWs (a :: b :: rest') =
          (if isPySpace a then ' ' else a) :: collapseWs (b :: rest') from
          by simp only [collapseWs, hab, if_false]; rw [if_neg (by simp [hab])]]
        by_cases ha : isPySpace a = true
        · simp [headIsSpace, ha]; decide
        · simp [headIsSpace, ha]

theorem noAdjWs_cons (x : Char) (ys : List Char) :
    noAdjWs (x :: ys) = (!(isPySpace x && headIsSpace ys) && noAdjWs ys) := by
  cases ys with
  | nil => simp [noAdjWs, headIsSpace]
  | cons y ys' => simp [noAdjWs, headIsSpace]

theorem noAdjWs_collapseWs (l : List Char) : noAdjWs (collapseWs l) = true := by
  induction l with
  | nil => rfl
  | cons a rest ih =>
    cases rest with
    | nil =>
      by_cases h : isPySpace a = true <;> simp [collapseWs, h, noAdjWs]
    | cons b rest' =>
      by_cases hab : (isPySpace a && isPySpace b) = true
      · rw [show collapseWs (a :: b :: rest') = collapseWs (b :: rest') from
          by simp [collapseWs, hab]]
        exact ih
      · rw [show collapseWs (a :: b :: rest') =
          (if isPySpace a then ' ' else a) :: collapseWs (b :: rest') from
          by simp only [collapseWs, hab, if_false]; rw [if_neg (by simp [hab])]]
        rw [noAdjWs_cons, headIsSpace_collapseWs]
        have hx : (isPySpace (if isPySpace a then ' ' else a) &&
            headIsSpace (b :: rest')) = false := by
          by_cases ha : isPySpace a = true
          · have hb : isPySpace b = false := by
              cases hpb : isPySpace b
              · rfl
              · exact absurd (by simp [ha, hpb]) hab
            simp [ha, headIsSpace, hb]
          · simp [ha, headIsSpace, Bool.eq_false_iff.mpr ha]
        rw [hx, ih]
        rfl

theorem noAdjWs_tail (a : Char) (l : List Char) (h : noAdjWs (a :: l) = true) :
    noAdjWs l = true := by
  rw [noAdjWs_cons, Bool.and_eq_true] at h
  exact h.2

theorem noAdjWs_dropWhile (p : Char → Bool) (l : List Char) (h : noAdjWs l = true) :
    noAdjWs (l.dropWhile p) = true := by
  induction l with
  | nil => simpa using h
  | cons a rest ih =>
    rw [List.dropWhile_cons]
    split
    · exact ih (noAdjWs_tail _ _ h)
    · exact h

theorem noAdjWs_append_left : ∀ l₁ l₂ : List Char, noAdjWs (l₁ ++ l₂) = true →
    noAdjWs l₁ = true := by
  intro l₁
  induction l₁ with
  | nil => intro l₂ _; rfl
  | cons x xs ih =>
    intro l₂ h
    rw [List.cons_append, noAdjWs_cons, Bool.and_eq_true] at h
    rcases h with ⟨h1, h2⟩
    rw [noAdjWs_cons, Bool.and_eq_true]
    refine ⟨?_, ih l₂ h2⟩
    cases xs with
    | nil => simp [headIsSpace]
    | cons y ys => simpa [headIsSpace] using h1

theorem rstripWs_append (l : List Char) :
    ∃ t, l = rstripWs l ++ t ∧ t.all isPySpace = true := by
  refine ⟨(l.reverse.takeWhile isPySpace).reverse, ?_, ?_⟩
  · conv_lhs => rw [← List.reverse_reverse l,
      ← List.takeWhile_append_dropWhile isPySpace l.reverse]
    rw [List.reverse_append]
    rfl
  · rw [List.all_eq_true]
    intro x hx
    rw [List.mem_reverse] at hx
    exact List.mem_takeWhile_imp hx

theorem noAdjWs_rstripWs (l : List Char) (h : noAdjWs l = true) :
    noAdjWs (rstripWs l) = true := by
  obtain ⟨t, ht, -⟩ := rstripWs_append l
  exact noAdjWs_append_left _ t (ht ▸ h)

theorem headIsSpace_dropWhile (l : List Char) :
    headIsSpace (l.dropWhile isPySpace) = false := by
  induction l with
  | nil => rfl
  | cons a rest ih =>
    rw [List.dropWhile_cons]
    split
    · exact ih
    · rename_i hp
      simpa [headIsSpace] using Bool.eq_false_iff.mpr hp

theorem headIsSpace_rstripWs (l : List Char) (h : headIsSpace l = false) :
    headIsSpace (rstripWs l) = false := by
  obtain ⟨t, ht, -⟩ := rstripWs_append l
  cases hr : rstripWs l with
  | nil => rfl
  | cons x xs =>
    rw [hr, List.cons_append] at ht
    rw [ht] at h
    simpa [headIsSpace] using h

theorem headIsSpace_pyStrip (l : List Char) : headIsSpace (pyStrip l) = false :=
  headIsSpace_rstripWs _ (headIsSpace_dropWhile l)

theorem lastIsSpace_pyStrip (l : List Char) : lastIsSpace (pyStrip l) = false := by
  unfold lastIsSpace pyStrip rstripWs
  rw [List.reverse_reverse]
  exact headIsSpace_dropWhile _

theorem mem_collapseWs (c : Char) : ∀ l, c ∈ collapseWs l → c ∈ l ∨ c = ' ' := by
  intro l
  induction l with
  | nil => intro h; simp [collapseWs] at h
  | cons a rest ih =>
    cases rest with
    | nil =>
      by_cases h : isPySpace a = true
      · intro hc
        right
        simpa [collapseWs, h] using hc
      · intro hc
        left
        simpa [collapseWs, h] using hc
    | cons b rest' =>
      intro hc
      by_cases hab : (isPySpace a && isPySpace b) = true
      · rw [show collapseWs (a :: b :: rest') = collapseWs (b :: rest') from
          by simp [collapseWs, hab]] at hc
        rcases ih hc with h1 | h1
        · exact Or.inl (List.mem_cons_of_mem a h1)
        · exact Or.inr h1
      · rw [show collapseWs (a :: b :: rest') =
          (if isPySpace a then ' ' else a) :: collapseWs (b :: rest') from
          by simp only [collapseWs, hab, if_false]; rw [if_neg (by simp [hab])]] at hc
        rcases List.mem_cons.mp hc with h1 | h1
        · by_cases ha : isPySpace a = true
          · exact Or.inr (by simpa [ha] using h1)
          · left
            simp only [ha, if_false] at h1
            simp [h1]
        · rcases ih h1 with h2 | h2
          · exact Or.inl (List.mem_cons_of_mem a h2)
          · exact Or.inr h2

theorem mem_pyStrip (c : Char) (l : List Char) (h : c ∈ pyStrip l) : c ∈ l := by
  unfold pyStrip rstripWs lstripWs at h
  rw [List.mem_reverse] at h
  have h2 := (List.dropWhile_sublist isPySpace).subset h
  rw [List.mem_reverse] at h2
  exact (List.dropWhile_sublist isPySpace).subset h2

theorem decorFree_sanitize (l : List Char) : decorFree (sanitize l) = true := by
  rw [decorFree, List.all_eq_true]
  intro c hc
  have h1 := mem_pyStrip c _ hc
  rcases mem_collapseWs c _ h1 with h2 | h2
  · rw [removeDecorations, List.mem_filter] at h2
    exact h2.2
  · subst h2; rfl

/-! ## Helper lemmas about the classifier scores -/

theorem hasSub_haiW_of_hainW (text : List Char) (h : hasSub hainW text = true) :
    hasSub haiW text = true := by
  have hsplit : hainW = haiW ++ ['ं'] := by decide
  exact hasSub_append_left haiW ['ं'] text (hsplit ▸ h)

theorem endsAfterEnders_false_of_not_hasSub (w text : List Char)
    (h : hasSub w text = false) : endsAfterEnders w text = false := by
  cases he : endsAfterEnders w text
  · rfl
  · exact absurd (endsAfterEnders_hasSub _ _ he) (by simp [h])

/-! ## Claim theorems about the language classifier -/

/-- C1 (amended): every Devanagari-containing text that contains the
Marathi copula word `आहे`, none of the Hindi copula forms
`है`, `हैं`, `था`, `थी`, `थे`, and whose Hindi-distinctive pattern
matches and Hindi domain-vocabulary hint contribute at most one point in
total, classifies as `mr`. -/
theorem detect_marathi_copula (text : List Char)
    (hdev : text.any isDevanagari = true)
    (hahe : hasSub aheW text = true)
    (hhai : hasSub haiW text = false)
    (hhain : hasSub hainW text = false)
    (htha : hasSub thaW text = false)
    (hthi : hasSub thiW text = false)
    (hthe : hasSub theW text = false)
    (hweak : hindiPatScore text +
      (if hindiDomainWords.any (fun w => hasSub w text) then 1 else 0) ≤ 1) :
    detect_language true text = "mr" := by
  have hend_hai := endsAfterEnders_false_of_not_hasSub haiW text hhai
  have hend_hain := endsAfterEnders_false_of_not_hasSub hainW text hhain
  have hbonus : bonusScores text = (marathiPatScore text + 2, hindiPatScore text) := by
    rw [bonusScores]
    simp [hahe, hhai]
  unfold detect_language
  rw [if_neg (show ¬(true = false) by decide), if_pos hdev]
  suffices hlt : (finalScores text).2 < (finalScores text).1 by rw [if_pos hlt]
  unfold finalScores domainScores
  rw [hbonus, hend_hai, hend_hain]
  by_cases hhd : hindiDomainWords.any (fun w => hasSub w text) = true <;>
    by_cases hmd : marathiDailyWords.any (fun w => hasSub w text) = true <;>
    by_cases hend : endsAfterEnders aheW text = true ∨ endsAfterEnders ahetW text = true <;>
    simp [hhd, hmd, hend] at hweak ⊢ <;>
    (try split) <;>
    (try simp) <;>
    omega

/-- C2 (amended): every Devanagari-containing text that contains `है` or
`हैं` classifies as `hi`, provided the Marathi-distinctive pattern
matches and the Marathi daily-word hint contribute at most one point in
total. -/
theorem detect_hindi_copula (text : List Char)
    (hdev : text.any isDevanagari = true)
    (hhai : hasSub haiW text = true ∨ hasSub hainW text = true)
    (hweak : marathiPatScore text +
      (if marathiDailyWords.any (fun w => hasSub w text) then 1 else 0) ≤ 1) :
    detect_language true text = "hi" := by
  have hhai' : hasSub haiW text = true :=
    hhai.elim id (hasSub_haiW_of_hainW text)
  have hbonus : bonusScores text = (marathiPatScore text, hindiPatScore text + 2) := by
    rw [bonusScores]
    simp [hhai']
  unfold detect_language
  rw [if_neg (show ¬(true = false) by decide), if_pos hdev]
  suffices hle : ¬ (finalScores text).2 < (finalScores text).1 by rw [if_neg hle]
  unfold finalScores domainScores
  rw [hbonus]
  by_cases hhd : hindiDomainWords.any (fun w => hasSub w text) = true <;>
    by_cases hmd : marathiDailyWords.any (fun w => hasSub w text) = true <;>
    by_cases hend1 : endsAfterEnders aheW text = true ∨ endsAfterEnders ahetW text = true <;>
    by_cases hend2 : endsAfterEnders haiW text = true ∨ endsAfterEnders hainW text = true <;>
    simp [hhd, hmd, hend1, hend2] at hweak ⊢ <;>
    (try split) <;>
    (try simp) <;>
    omega

/-- C4: text with no Devanagari character classifies as `en` (whether or
not Latin letters are present, and for both availability flags); and
Devanagari-containing text in which no Marathi-distinctive pattern, no
Marathi daily word, no occurrence of the copula `आहे` and no
sentence-final Marathi copula ending is found classifies as `hi`. -/
theorem detect_script_gating :
    (∀ (ttsAvailable : Bool) (text : List Char), text.any isDevanagari = false →
      detect_language ttsAvailable text = "en") ∧
    (∀ text : List Char, text.any isDevanagari = true →
      marathiPatScore text = 0 →
      marathiDailyWords.any (fun w => hasSub w text) = false →
      hasSub aheW text = false →
      endsAfterEnders aheW text = false →
      endsAfterEnders ahetW text = false →
      detect_language true text = "hi") := by
  constructor
  · intro avail text hdev
    unfold detect_language
    cases avail
    · rw [if_pos rfl]
    · rw [if_neg (show ¬(true = false) by decide), if_neg (by simp [hdev])]
      split <;> rfl
  · intro text hdev hmp hmd hahe hend1 hend2
    have hm1 : (bonusScores text).1 = 0 := by
      rw [bonusScores]
      simp [hahe, hmp]
      split <;> simp
    have hm2 : (domainScores text).1 = 0 := by
      rw [domainScores]
      simp [hmd, hm1]
    have hm3 : (finalScores text).1 = 0 := by
      rw [finalScores]
      simp [hend1, hend2]
      split <;> (try split) <;> simp [hm2]
    unfold detect_language
    rw [if_neg (show ¬(true = false) by decide), if_pos hdev]
    rw [if_neg (by omega)]

/-- C4 witness: a Latin-only text classifies as English, and a
Devanagari text with no Marathi evidence classifies as Hindi. -/
theorem detect_script_gating_witness :
    detect_language true "hello!".data = "en" ∧
    detect_language true "यह है".data = "hi" :=
  ⟨detect_script_gating.1 true "hello!".data rfl,
   detect_script_gating.2 "यह है".data rfl rfl rfl rfl rfl rfl⟩

/-- C1 witness: the spec's own example sentence satisfies the premises
and classifies as Marathi. -/
theorem detect_marathi_copula_witness :
    detect_language true "कृपया योजना आहे".data = "mr" :=
  detect_marathi_copula "कृपया योजना आहे".data rfl rfl rfl rfl rfl rfl rfl (by decide)

/-- C1 counterexample: this text contains Devanagari and the Marathi
copula `आहे`, contains none of the Hindi copula forms, yet four
Hindi-distinctive patterns match, so the classifier returns `hi`,
refuting the unconditional claim. -/
theorem detect_marathi_copula_cex :
    "आहे चाहिए गई आए लिए".data.any isDevanagari = true ∧
    hasSub aheW "आहे चाहिए गई आए लिए".data = true ∧
    hasSub haiW "आहे चाहिए गई आए लिए".data = false ∧
    hasSub hainW "आहे चाहिए गई आए लिए".data = false ∧
    hasSub thaW "आहे चाहिए गई आए लिए".data = false ∧
    hasSub thiW "आहे चाहिए गई आए लिए".data = false ∧
    hasSub theW "आहे चाहिए गई आए लिए".data = false ∧
    detect_language true "आहे चाहिए गई आए लिए".data = "hi" ∧
    detect_language true "आहे चाहिए गई आए लिए".data ≠ "mr" := by
  refine ⟨rfl, rfl, rfl, rfl, rfl, rfl, rfl, rfl, ?_⟩
  decide

/-- C2 witness: a plain Hindi sentence containing `है` with no Marathi
evidence classifies as Hindi. -/
theorem detect_hindi_copula_witness :
    detect_language true "यह सही है".data = "hi" :=
  detect_hindi_copula "यह सही है".data rfl (Or.inl rfl) (by decide)

/-- C2 counterexample: this text contains `है`, yet one Marathi pattern,
the Marathi daily word `कधी` and the sentence-final `आहे` outweigh the
Hindi copula bonus, so the classifier returns `mr`, refuting the
unconditional claim. -/
theorem detect_hindi_copula_cex :
    hasSub haiW "है असेल कधी आहे".data = true ∧
    "है असेल कधी आहे".data.any isDevanagari = true ∧
    detect_language true "है असेल कधी आहे".data = "mr" ∧
    detect_language true "है असेल कधी आहे".data ≠ "hi" := by
  refine ⟨rfl, rfl, rfl, ?_⟩
  decide

/-! ## Claim theorems about the sanitizer -/

/-- C8 (amended): the sanitizer is total; its result is trimmed, has no
two adjacent whitespace characters and no decorative symbol; the
stage-direction removal step leaves no same-line `[` … `/]` direction in
its own output (a direction spanning a newline, or re-formed by the
later symbol removal, can still reach the final result); and degenerate
input yields the empty result. -/
theorem sanitize_spec (l : List Char) :
    headIsSpace (sanitize l) = false ∧ lastIsSpace (sanitize l) = false ∧
    noAdjWs (sanitize l) = true ∧ decorFree (sanitize l) = true ∧
    containsDirective (stripStageDirections l) = false ∧ sanitize [] = [] :=
  ⟨headIsSpace_pyStrip _, lastIsSpace_pyStrip _,
   noAdjWs_rstripWs _ (noAdjWs_dropWhile _ _ (noAdjWs_collapseWs _)),
   decorFree_sanitize l, containsDirective_stripStageDirections l, rfl⟩

/-- C8 counterexample: removing the decorative `=` from `[a/=]` glues
`/` and `]` together, so the sanitized result is the stage direction
`[a/]` itself — the claim that the result never contains a
bracket-delimited `[` … `/]` form is false. -/
theorem sanitize_spec_cex :
    sanitize "[a/=]".data = "[a/]".data ∧
    containsDirective (sanitize "[a/=]".data) = true :=
  ⟨rfl, rfl⟩

/-- C8 witness: the guarantees instantiated on a concrete noisy input. -/
theorem sanitize_spec_witness :
    headIsSpace (sanitize "  hello [aside/]   world ✅ ".data) = false ∧
    lastIsSpace (sanitize "  hello [aside/]   world ✅ ".data) = false ∧
    noAdjWs (sanitize "  hello [aside/]   world ✅ ".data) = true ∧
    decorFree (sanitize "  hello [aside/]   world ✅ ".data) = true ∧
    containsDirective (stripStageDirections "  hello [aside/]   world ✅ ".data) = false ∧
    sanitize [] = [] :=
  sanitize_spec "  hello [aside/]   world ✅ ".data

/-! ## Character-class lemmas -/

theorem isDevanagari_not_space (c : Char) (h : isDevanagari c = true) :
    isPySpace c = false := by
  cases hsp : isPySpace c
  · rfl
  · exfalso
    simp only [isDevanagari, Bool.and_eq_true, decide_eq_true_eq] at h
    simp only [isPySpace, Bool.or_eq_true, Bool.and_eq_true, decide_eq_true_eq,
      beq_iff_eq] at hsp
    omega

theorem isLatinLetter_not_space (c : Char) (h : isLatinLetter c = true) :
    isPySpace c = false := by
  cases hsp : isPySpace c
  · rfl
  · exfalso
    simp only [isLatinLetter, Bool.or_eq_true, Bool.and_eq_true, decide_eq_true_eq] at h
    simp only [isPySpace, Bool.or_eq_true, Bool.and_eq_true, decide_eq_true_eq,
      beq_iff_eq] at hsp
    omega

theorem mem_dropWhile_of_neg {p : Char → Bool} {c : Char} : ∀ {l : List Char},
    c ∈ l → p c = false → c ∈ l.dropWhile p := by
  intro l
  induction l with
  | nil => intro hc _; cases hc
  | cons a rest ih =>
    intro hc hp
    rw [List.dropWhile_cons]
    split
    · rcases List.mem_cons.mp hc with rfl | hm
      · rename_i hpa
        rw [hp] at hpa
        cases hpa
      · exact ih hm hp
    · exact hc

/-! ## Claim theorems about validation, orchestration and the cache -/

/-- C10: the transcription-side guard rejects every empty or
whitespace-only text, and accepts every text that contains at least one
Devanagari character or Latin letter, whatever other characters are
present. -/
theorem validate_language_spec :
    (∀ text : List Char, text.all isPySpace = true → validate_language text = false) ∧
    (∀ (text : List Char) (c : Char), c ∈ text →
      isDevanagari c = true ∨ isLatinLetter c = true → validate_language text = true) := by
  constructor
  · intro text hall
    have hstrip : pyStrip text = [] := by
      unfold pyStrip lstripWs
      have hd : text.dropWhile isPySpace = [] :=
        List.dropWhile_eq_nil_iff.mpr (fun x hx => (List.all_eq_true.mp hall) x hx)
      rw [hd]
      rfl
    simp [validate_language, hstrip]
  · intro text c hc hclass
    have hns : isPySpace c = false :=
      hclass.elim (isDevanagari_not_space c) (isLatinLetter_not_space c)
    have h1 : c ∈ lstripWs text := mem_dropWhile_of_neg hc hns
    have h2 : c ∈ pyStrip text := by
      unfold pyStrip rstripWs
      rw [List.mem_reverse]
      exact mem_dropWhile_of_neg (List.mem_reverse.mpr h1) hns
    have hne1 : text ≠ [] := List.ne_nil_of_mem hc
    have hne2 : pyStrip text ≠ [] := List.ne_nil_of_mem h2
    unfold validate_language
    rw [if_neg (by simp [hne1, hne2])]
    rcases hclass with h | h
    · have hany : text.any isDevanagari = true := List.any_eq_true.mpr ⟨c, hc, h⟩
      simp [hany]
    · have hany : text.any isLatinLetter = true := List.any_eq_true.mpr ⟨c, hc, h⟩
      simp [hany]

/-- C10 witness: whitespace-only text is rejected; mixed-script text
containing a Devanagari letter is accepted. -/
theorem validate_language_spec_witness :
    validate_language "   ".data = false ∧ validate_language "अ☃".data = true :=
  ⟨validate_language_spec.1 "   ".data (by decide),
   validate_language_spec.2 "अ☃".data 'अ' (by decide) (Or.inl (by decide))⟩

/-- C9: with the TTS dependencies unavailable, the classifier returns
`en` for every text, and the orchestrator returns the degraded triple
with the state — cache and engine log — completely untouched. -/
theorem unavailable_degradation :
    (∀ text : List Char, detect_language false text = "en") ∧
    (∀ (engine : Engine) (text : List Char) (pref : Option String) (speed : ℚ)
      (st : TtsState),
      generate_audio_response false engine text pref speed st =
        ((none, some "en", false), st)) := by
  constructor
  · intro text; rfl
  · intro engine text pref speed st; rfl

/-- C9 witness: degraded behavior on a concrete input. -/
theorem unavailable_degradation_witness :
    detect_language false "यह है".data = "en" ∧
    generate_audio_response false (fun _ _ _ => some [9]) "hello there".data
        (some "mr") 1 ⟨[], []⟩ = ((none, some "en", false), ⟨[], []⟩) :=
  ⟨unavailable_degradation.1 "यह है".data,
   unavailable_degradation.2 (fun _ _ _ => some [9]) "hello there".data (some "mr") 1
     ⟨[], []⟩⟩

/-- C3 (amended): when the sanitized text is shorter than five
characters the orchestrator returns no audio and no cache hit without
touching the state, and the reported language is the preference when one
is given and it is not `auto`, English for the `auto` sentinel, and the
absent value when no preference was given. -/
theorem short_text_skip (engine : Engine) (text : List Char) (pref : Option String)
    (speed : ℚ) (st : TtsState) (h : (sanitize text).length < 5) :
    generate_audio_response true engine text pref speed st =
      ((none, if pref == some "auto" then some "en" else pref, false), st) := by
  simp only [generate_audio_response]
  rw [if_neg (show ¬(true = false) by decide), if_pos h]

/-- C3 witness: the `auto` sentinel resolves to English on the
short-circuit path. -/
theorem short_text_skip_witness :
    generate_audio_response true (fun _ _ _ => some [0]) "hi!".data (some "auto") 1
        ⟨[], []⟩ = ((none, some "en", false), ⟨[], []⟩) :=
  short_text_skip (fun _ _ _ => some [0]) "hi!".data (some "auto") 1 ⟨[], []⟩ (by decide)

/-- C3 counterexample: with an absent preference the short-circuit
returns the absent language, not English as claimed. -/
theorem short_text_skip_cex :
    (sanitize "ab".data).length < 5 ∧
    (generate_audio_response true (fun _ _ _ => some [0]) "ab".data none 1
        ⟨[], []⟩).1.2.1 ≠ some "en" := by
  constructor
  · decide
  · decide

/-- C5: the classifier is total with range inside the closed set
`{en, hi, mr}` and each of the three values is attained; the adapter
rejects a resolved language outside the closed set before any engine
call, leaving the state untouched; and every entry ever added to the
engine-call log carries a language in the closed set. -/
theorem tts_language_validation :
    (∀ (ttsAvailable : Bool) (text : List Char),
      detect_language ttsAvailable text = "en" ∨
        detect_language ttsAvailable text = "hi" ∨
        detect_language ttsAvailable text = "mr") ∧
    (detect_language true "What is this scheme?".data = "en" ∧
      detect_language true "यह है".data = "hi" ∧
      detect_language true "असेल कधी".data = "mr") ∧
    (∀ (engine : Engine) (text : List Char) (lang : Option String) (autoDetect : Bool)
        (speed : ℚ) (st : TtsState),
      validLang (resolveLang true text lang autoDetect) = false →
      text_to_speech true engine text lang autoDetect speed st =
        ((none, resolveLang true text lang autoDetect,
          "error: unsupported language"), st)) ∧
    (∀ (ttsAvailable : Bool) (engine : Engine) (text : List Char) (lang : Option String)
        (autoDetect : Bool) (speed : ℚ) (st : TtsState)
        (call : List Char × String × Bool),
      call ∈ (text_to_speech ttsAvailable engine text lang autoDetect speed st).2.engineLog →
      call ∈ st.engineLog ∨ validLang call.2.1 = true) := by
  refine ⟨?_, ⟨rfl, rfl, rfl⟩, ?_, ?_⟩
  · intro avail text
    unfold detect_language
    split
    · exact Or.inl rfl
    · split
      · split
        · exact Or.inr (Or.inr rfl)
        · exact Or.inr (Or.inl rfl)
      · split
        · exact Or.inl rfl
        · exact Or.inl rfl
  · intro engine text lang autoDetect speed st h
    simp only [text_to_speech]
    rw [if_neg (show ¬(true = false) by decide), if_pos h]
  · intro avail engine text lang autoDetect speed st call hmem
    simp only [text_to_speech] at hmem
    split at hmem
    · exact Or.inl hmem
    · split at hmem
      · exact Or.inl hmem
      · rename_i hval
        have hval' : validLang (resolveLang avail text lang autoDetect) = true := by
          cases h : validLang (resolveLang avail text lang autoDetect)
          · exact absurd h hval
          · rfl
        split at hmem
        · exact Or.inl hmem
        · split at hmem <;>
          · dsimp only at hmem
            rcases List.mem_cons.mp hmem with rfl | hm
            · exact Or.inr hval'
            · exact Or.inl hm

/-- C5 witness: a supplied unsupported language with auto-detection off
is rejected with no audio and no state change. -/
theorem tts_language_validation_witness :
    text_to_speech true (fun _ _ _ => some [1]) "hello".data (some "fr") false 1
        ⟨[], []⟩ =
      ((none, "fr", "error: unsupported language"), ⟨[], []⟩) :=
  tts_language_validation.2.2.1 (fun _ _ _ => some [1]) "hello".data (some "fr")
    false 1 ⟨[], []⟩ (by decide)

/-- C6: every internal failure is converted into the degraded triple:
with the dependencies missing, the orchestrator returns
`(absent, en, no hit)` and leaves the state alone; with an unsupported
resolved language, it returns `(absent, that language, no hit)` and
leaves the state alone; and with a cache miss and a failing engine, it
returns `(absent, resolved language, no hit)`, the only state change
being the logged engine call.  The orchestrator is a total function, so
no input makes it raise. -/
theorem failure_conversion :
    (∀ (engine : Engine) (text : List Char) (pref : Option String) (speed : ℚ)
        (st : TtsState),
      generate_audio_response false engine text pref speed st =
        ((none, some "en", false), st)) ∧
    (∀ (engine : Engine) (text : List Char) (pref : Option String) (speed : ℚ)
        (st : TtsState),
      ¬ (sanitize text).length < 5 →
      validLang (resolveLang true (sanitize text) (target_lang pref)
        (target_lang pref == none)) = false →
      generate_audio_response true engine text pref speed st =
        ((none, some (resolveLang true (sanitize text) (target_lang pref)
          (target_lang pref == none)), false), st)) ∧
    (∀ (engine : Engine) (text : List Char) (pref : Option String) (speed : ℚ)
        (st : TtsState),
      ¬ (sanitize text).length < 5 →
      validLang (resolveLang true (sanitize text) (target_lang pref)
        (target_lang pref == none)) = true →
      (get_cached_audio (get_audio_hash (sanitize text)
        (resolveLang true (sanitize text) (target_lang pref) (target_lang pref == none))
        speed) st.cache).getD [] = [] →
      engine (sanitize text)
        (resolveLang true (sanitize text) (target_lang pref) (target_lang pref == none))
        (Rat.blt speed slowThreshold) = none →
      generate_audio_response true engine text pref speed st =
        ((none, some (resolveLang true (sanitize text) (target_lang pref)
          (target_lang pref == none)), false),
          { st with engineLog := (sanitize text,
              resolveLang true (sanitize text) (target_lang pref)
                (target_lang pref == none),
              Rat.blt speed slowThreshold) :: st.engineLog })) := by
  refine ⟨?_, ?_, ?_⟩
  · intro engine text pref speed st; rfl
  · intro engine text pref speed st hlen hval
    have htts : text_to_speech true engine (sanitize text) (target_lang pref)
        (target_lang pref == none) speed st =
        ((none, resolveLang true (sanitize text) (target_lang pref)
          (target_lang pref == none), "error: unsupported language"), st) := by
      simp only [text_to_speech]
      rw [if_neg (show ¬(true = false) by decide), if_pos hval]
    simp only [generate_audio_response]
    rw [if_neg (show ¬(true = false) by decide), if_neg hlen, htts]
    rfl
  · intro engine text pref speed st hlen hval hcache hengine
    have htts : text_to_speech true engine (sanitize text) (target_lang pref)
        (target_lang pref == none) speed st =
        ((none, resolveLang true (sanitize text) (target_lang pref)
          (target_lang pref == none), "error: synthesis failed"),
          { st with engineLog := (sanitize text,
              resolveLang true (sanitize text) (target_lang pref)
                (target_lang pref == none),
              Rat.blt speed slowThreshold) :: st.engineLog }) := by
      simp only [text_to_speech]
      rw [if_neg (show ¬(true = false) by decide), if_neg (by simp [hval]),
        if_neg (by simp [hcache]), hengine]
    simp only [generate_audio_response]
    rw [if_neg (show ¬(true = false) by decide), if_neg hlen, htts]
    rfl

/-- C6 witness: a failing engine on a cache miss yields the degraded
triple, with only the logged engine call added to the state. -/
theorem failure_conversion_witness :
    generate_audio_response true (fun _ _ _ => none) "hello world".data (some "en") 1
        ⟨[], []⟩ =
      ((none, some "en", false), ⟨[], [("hello world".data, "en", false)]⟩) := by
  have h := failure_conversion.2.2 (fun _ _ _ => none) "hello world".data (some "en") 1
    ⟨[], []⟩ (by decide) (by decide) (by decide) rfl
  rw [h]
  decide

theorem tts_second_call (engine : Engine) (text : List Char) (lang : Option String)
    (ad : Bool) (speed : ℚ) (st : TtsState) (bs : AudioBytes)
    (h1 : (text_to_speech true engine text lang ad speed st).1.1 = some bs)
    (h2 : bs ≠ []) :
    text_to_speech true engine text lang ad speed
        (text_to_speech true engine text lang ad speed st).2 =
      ((some bs, resolveLang true text lang ad, "cached"),
        (text_to_speech true engine text lang ad speed st).2) := by
  have tf : ¬(true = false) := by decide
  by_cases hval : validLang (resolveLang true text lang ad) = false
  · rw [show text_to_speech true engine text lang ad speed st =
      ((none, resolveLang true text lang ad, "error: unsupported language"), st) from by
        simp only [text_to_speech]; rw [if_neg tf, if_pos hval]] at h1
    simp at h1
  · by_cases hcach : (get_cached_audio (get_audio_hash text
        (resolveLang true text lang ad) speed) st.cache).getD [] ≠ []
    · have hfirst : text_to_speech true engine text lang ad speed st =
          ((some ((get_cached_audio (get_audio_hash text
            (resolveLang true text lang ad) speed) st.cache).getD []),
            resolveLang true text lang ad, "cached"), st) := by
        simp only [text_to_speech]
        rw [if_neg tf, if_neg hval, if_pos hcach]
      have hb : (get_cached_audio (get_audio_hash text
          (resolveLang true text lang ad) speed) st.cache).getD [] = bs := by
        rw [hfirst] at h1
        exact Option.some.inj h1
      rw [hfirst]
      dsimp only
      rw [hfirst, hb]
    · cases heng : engine text (resolveLang true text lang ad)
        (Rat.blt speed slowThreshold) with
      | none =>
        rw [show text_to_speech true engine text lang ad speed st =
          ((none, resolveLang true text lang ad, "error: synthesis failed"),
            { st with engineLog := (text, resolveLang true text lang ad,
              Rat.blt speed slowThreshold) :: st.engineLog }) from by
            simp only [text_to_speech]
            rw [if_neg tf, if_neg hval, if_neg hcach, heng]] at h1
        simp at h1
      | some bytes =>
        have hfirst : text_to_speech true engine text lang ad speed st =
            ((some bytes, resolveLang true text lang ad, "generated"),
              { st with
                cache := (get_audio_hash text (resolveLang true text lang ad) speed,
                  bytes) :: st.cache,
                engineLog := (text, resolveLang true text lang ad,
                  Rat.blt speed slowThreshold) :: st.engineLog }) := by
          simp only [text_to_speech]
          rw [if_neg tf, if_neg hval, if_neg hcach, heng]
          rfl
        have hbb : bytes = bs := by
          rw [hfirst] at h1
          exact Option.some.inj h1
        rw [hbb] at hfirst
        rw [hfirst]
        dsimp only
        simp only [text_to_speech]
        rw [if_neg tf, if_neg hval]
        rw [show get_cached_audio (get_audio_hash text
            (resolveLang true text lang ad) speed)
            ((get_audio_hash text (resolveLang true text lang ad) speed, bs) :: st.cache)
            = some bs from by simp [get_cached_audio]]
        rw [if_pos (by simpa using h2)]
        rfl

/-- C7: a second orchestrator call with identical text, preference and
speed, after a first call that produced (and, on a miss, stored)
nonempty audio bytes, returns those same bytes and reports a cache
hit. -/
theorem cache_idempotence (engine : Engine) (text : List Char) (pref : Option String)
    (speed : ℚ) (st : TtsState) (bs : AudioBytes)
    (h1 : (generate_audio_response true engine text pref speed st).1.1 = some bs)
    (h2 : bs ≠ []) :
    (generate_audio_response true engine text pref speed
        (generate_audio_response true engine text pref speed st).2).1.1 = some bs ∧
    (generate_audio_response true engine text pref speed
        (generate_audio_response true engine text pref speed st).2).1.2.2 = true := by
  have tf : ¬(true = false) := by decide
  by_cases hlen : (sanitize text).length < 5
  · rw [show generate_audio_response true engine text pref speed st =
      ((none, if pref == some "auto" then some "en" else pref, false), st) from by
        simp only [generate_audio_response]; rw [if_neg tf, if_pos hlen]] at h1
    simp at h1
  · have hgen : ∀ s : TtsState, generate_audio_response true engine text pref speed s =
        (((text_to_speech true engine (sanitize text) (target_lang pref)
            (target_lang pref == none) speed s).1.1,
          some (text_to_speech true engine (sanitize text) (target_lang pref)
            (target_lang pref == none) speed s).1.2.1,
          (text_to_speech true engine (sanitize text) (target_lang pref)
            (target_lang pref == none) speed s).1.2.2 == "cached"),
          (text_to_speech true engine (sanitize text) (target_lang pref)
            (target_lang pref == none) speed s).2) := by
      intro s
      simp only [generate_audio_response]
      rw [if_neg tf, if_neg hlen]
    rw [hgen st] at h1
    dsimp only at h1
    have hsec := tts_second_call engine (sanitize text) (target_lang pref)
      (target_lang pref == none) speed st bs h1 h2
    rw [hgen st, hgen ((text_to_speech true engine (sanitize text) (target_lang pref)
      (target_lang pref == none) speed st).2)]
    dsimp only
    rw [hsec]
    exact ⟨rfl, rfl⟩

/-- C7 witness: a concrete second call returns the first call's bytes
with a cache hit. -/
theorem cache_idempotence_witness :
    (generate_audio_response true (fun _ _ _ => some [7]) "hello there".data
        (some "en") 1
        (generate_audio_response true (fun _ _ _ => some [7]) "hello there".data
          (some "en") 1 ⟨[], []⟩).2).1.1 = some [7] ∧
    (generate_audio_response true (fun _ _ _ => some [7]) "hello there".data
        (some "en") 1
        (generate_audio_response true (fun _ _ _ => some [7]) "hello there".data
          (some "en") 1 ⟨[], []⟩).2).1.2.2 = true :=
  cache_idempotence (fun _ _ _ => some [7]) "hello there".data (some "en") 1
    ⟨[], []⟩ [7] (by decide) (by decide)

end CMO
